import Mathlib

/-!
# ros2_canopen: MasterNode (canopen_core/master_node.hpp)

A shallow embedding of the service handlers, the driver registration calls and
the shutdown path of `ros2_canopen::MasterNode`, with the properties of its
specification stated and proved over the embedding.

Conventions of the embedding.

* Unsigned fields (`uint8_t`, `uint16_t`, `uint32_t`) are natural numbers. The
  handlers only copy them: `COData data = {request->index, ...}` is a braced
  initialisation, which C++ rejects when it would narrow, so a copy never
  changes a value.
* A `std::future<T>` on which `wait()` has returned is a `FutureResult T`: the
  value the bridge stored, or the exception object it stored.
* A function that may let a C++ exception escape returns `Except`; a normal
  return is `Except.ok`.
* `LelyMasterBridge`, the driver interface and the service message types are
  declared in headers that are not part of this source file; they appear as
  parameters.
-/

namespace ros2_canopen

/-! ## Data exchanged with the bridge -/

/-- The record `ros2_canopen::COData` as the handlers build it:
`{index_, subindex_, data_, type_}` in this order. The datatype tag `type_` is
the numeric value of the `CODataTypes` enumerator. -/
structure COData where
  index_ : Nat
  subindex_ : Nat
  data_ : Nat
  type_ : Nat
deriving DecidableEq, Repr

/-- An exception object of a class derived from `std::exception`, the class
named by the handlers in `catch (std::exception &e)`; `what` is `e.what()`.
The bridge reports a failed transaction by storing such an object in the
promise. -/
structure StdException where
  what : String
deriving DecidableEq, Repr

/-- The shared state of a `std::future<T>` once `f.wait()` has returned: it
holds either a value or an exception. -/
inductive FutureResult (α : Type) where
  | value (v : α)
  | exception (e : StdException)
deriving DecidableEq, Repr

/-- The call `f.get()`: returns the stored value or rethrows the stored
exception. -/
def FutureResult.get {α : Type} : FutureResult α → Except StdException α
  | .value v => .ok v
  | .exception e => .error e

/-- The two operations of `LelyMasterBridge` that `MasterNode` calls, over a
bridge state `σ` (the protocol session and whatever is behind the bus). Each
returns the settled future and the bridge state after the transaction. -/
structure LelyMasterBridge (σ : Type) where
  async_read_sdo : σ → Nat → COData → FutureResult COData × σ
  async_write_sdo : σ → Nat → COData → FutureResult Bool × σ

/-! ## Service messages -/

/-- Request of the service `COReadID`, with the fields `on_sdo_read` reads. -/
structure COReadIDRequest where
  nodeid : Nat
  index : Nat
  subindex : Nat
  type : Nat
deriving DecidableEq, Repr

/-- Response of the service `COReadID`: the fields `on_sdo_read` assigns, and
`other` for any further field the message type declares. -/
structure COReadIDResponse (ρ : Type) where
  data : Nat
  success : Bool
  other : ρ
deriving DecidableEq, Repr

/-- Request of the service `COWriteID`, with the fields `on_sdo_write` reads. -/
structure COWriteIDRequest where
  nodeid : Nat
  index : Nat
  subindex : Nat
  data : Nat
  type : Nat
deriving DecidableEq, Repr

/-- Response of the service `COWriteID`: the field `on_sdo_write` assigns, and
`other` for any further field the message type declares. -/
structure COWriteIDResponse (ρ : Type) where
  success : Bool
  other : ρ
deriving DecidableEq, Repr

/-- What a service handler leaves behind when it returns: the response object,
the bridge state, and the lines it handed to `RCLCPP_ERROR`. -/
structure Handled (σ : Type) (β : Type) where
  response : β
  master_ : σ
  logged : List String

namespace MasterNode

/-- The handler `MasterNode::on_sdo_read` (lines 139-157). The cast
`static_cast<CODataTypes>(request->type)` keeps the numeric value of the tag. -/
def on_sdo_read {σ ρ : Type} (bridge : LelyMasterBridge σ) (master_ : σ)
    (request : COReadIDRequest) (response : COReadIDResponse ρ) :
    Except StdException (Handled σ (COReadIDResponse ρ)) :=
  let datatype := request.type
  let data : COData := ⟨request.index, request.subindex, 0, datatype⟩
  let f := bridge.async_read_sdo master_ request.nodeid data
  -- f.wait()
  try
    let d ← f.1.get
    let response := { response with data := d.data_ }
    let response := { response with success := true }
    pure ⟨response, f.2, []⟩
  catch e =>
    let response := { response with success := false }
    pure ⟨response, f.2, [e.what]⟩

/-- The handler `MasterNode::on_sdo_write` (lines 165-182). The cast
`static_cast<CODataTypes>(request->type)` keeps the numeric value of the tag. -/
def on_sdo_write {σ ρ : Type} (bridge : LelyMasterBridge σ) (master_ : σ)
    (request : COWriteIDRequest) (response : COWriteIDResponse ρ) :
    Except StdException (Handled σ (COWriteIDResponse ρ)) :=
  let datatype := request.type
  let data : COData := ⟨request.index, request.subindex, request.data, datatype⟩
  let f := bridge.async_write_sdo master_ request.nodeid data
  -- f.wait()
  try
    let b ← f.1.get
    let response := { response with success := b }
    pure ⟨response, f.2, []⟩
  catch e =>
    let response := { response with success := false }
    pure ⟨response, f.2, [e.what]⟩

end MasterNode

/-! ## Bridges used to exercise the handlers -/

/-- One call made on the bridge: which operation, to which node id, with which
`COData`. -/
inductive Transaction where
  | read (id : Nat) (data : COData)
  | write (id : Nat) (data : COData)
deriving DecidableEq, Repr

/-- A bridge that appends every call it receives to a journal and settles the
future as the given functions say. -/
def recording_bridge (rd : Nat → COData → FutureResult COData)
    (wr : Nat → COData → FutureResult Bool) : LelyMasterBridge (List Transaction) where
  async_read_sdo := fun journal id data => (rd id data, journal ++ [Transaction.read id data])
  async_write_sdo := fun journal id data => (wr id data, journal ++ [Transaction.write id data])

/-- The datatype tag written UINT32 in the specification. The enumerators of
`CODataTypes` are declared in `exchange.hpp`, outside this source file; the
handlers pass the tag through unchanged, so its numeric value plays no role. -/
def UINT32 : Nat := 32

/-- One object held by a device on the loopback bus: its coordinates, the
datatype it was written with, and its value. -/
structure RemoteObject where
  nodeid : Nat
  index : Nat
  subindex : Nat
  type : Nat
  value : Nat
deriving DecidableEq, Repr

/-- Modelled from the spec: the Protocol Bridge (`LelyMasterBridge`, declared in
`lely_master_bridge.hpp`, which is not part of the source) in front of a
simulated loopback bus. The bus has a set of configured node ids and the
objects written so far, most recent first. -/
structure LoopbackBus where
  nodes : List Nat
  objects : List RemoteObject
deriving DecidableEq, Repr

/-- The object currently stored at the coordinates `(id, index, subindex)`. -/
def LoopbackBus.find (bus : LoopbackBus) (id index subindex : Nat) : Option RemoteObject :=
  bus.objects.find? (fun o => o.nodeid == id && o.index == index && o.subindex == subindex)

/-- Modelled from the spec: a write transaction of the missing bridge. An unknown
node identifier is a failure; otherwise the value is stored under the
coordinates, with its datatype, and the transaction reports `true`. -/
def LoopbackBus.write (bus : LoopbackBus) (id : Nat) (data : COData) :
    FutureResult Bool × LoopbackBus :=
  if id ∈ bus.nodes then
    (.value true,
      { bus with objects := ⟨id, data.index_, data.subindex_, data.type_, data.data_⟩ :: bus.objects })
  else
    (.exception ⟨"unknown node"⟩, bus)

/-- Modelled from the spec: a read transaction of the missing bridge. An unknown
node identifier, an object never written, and a datatype that differs from the
one of the remote object are failures; otherwise the stored value is returned. -/
def LoopbackBus.read (bus : LoopbackBus) (id : Nat) (data : COData) :
    FutureResult COData × LoopbackBus :=
  if id ∈ bus.nodes then
    match bus.find id data.index_ data.subindex_ with
    | none => (.exception ⟨"no such object"⟩, bus)
    | some o =>
      if o.type = data.type_ then (.value { data with data_ := o.value }, bus)
      else (.exception ⟨"datatype mismatch"⟩, bus)
  else
    (.exception ⟨"unknown node"⟩, bus)

/-- Modelled from the spec: the missing `LelyMasterBridge` over the loopback
bus. -/
def loopback_bridge : LelyMasterBridge LoopbackBus where
  async_read_sdo := LoopbackBus.read
  async_write_sdo := LoopbackBus.write

/-- A service request arriving at the master. -/
inductive Request where
  | sdo_read (request : COReadIDRequest)
  | sdo_write (request : COWriteIDRequest)
deriving DecidableEq, Repr

/-- Whether a request is a write to the coordinates `(id, index, subindex)`. -/
def Request.writes_to (id index subindex : Nat) : Request → Bool
  | .sdo_read _ => false
  | .sdo_write w => w.nodeid == id && w.index == index && w.subindex == subindex

/-- The bus after the master has served one request through its handlers. -/
def serve (bus : LoopbackBus) : Request → LoopbackBus
  | .sdo_read r =>
    match MasterNode.on_sdo_read loopback_bridge bus r (⟨0, false, ()⟩ : COReadIDResponse Unit) with
    | .ok h => h.master_
    | .error _ => bus
  | .sdo_write w =>
    match MasterNode.on_sdo_write loopback_bridge bus w (⟨false, ()⟩ : COWriteIDResponse Unit) with
    | .ok h => h.master_
    | .error _ => bus

/-! ## Blocking posts: `add_driver` and `remove_driver` -/

/-- How a call of the driver's `init` or `remove` ends: it returns, or it
throws. -/
inductive DriverOutcome where
  | returns
  | throws (e : StdException)
deriving DecidableEq, Repr

/-- The two member functions of `DriverInterface` that `MasterNode` calls, each
as the outcome it has for a node id. The interface is declared in `device.hpp`,
outside this source file. -/
structure DriverInterface where
  init : Nat → DriverOutcome
  remove : Nat → DriverOutcome

/-- What a `std::promise<void>` can be resolved with. -/
inductive Resolution where
  | value
  | exception (e : StdException)
deriving DecidableEq, Repr

/-- The shared state of a `std::promise<void>` and its future: the resolutions
stored in it, oldest first. -/
structure Promise where
  resolutions : List Resolution
deriving DecidableEq, Repr

/-- The call `std::make_shared<std::promise<void>>()`: nothing stored yet. -/
def Promise.fresh : Promise := ⟨[]⟩

/-- The call `prom->set_value()`: stores a value, or throws when the promise is
already satisfied. -/
def Promise.set_value (p : Promise) : Except StdException Promise :=
  if p.resolutions = [] then .ok ⟨[Resolution.value]⟩
  else .error ⟨"promise already satisfied"⟩

/-- Whether `f.wait()` on the future of the promise returns. -/
def Promise.ready (p : Promise) : Bool := !p.resolutions.isEmpty

/-- The effect of running a posted closure on the loop thread: the promise it
shares with the caller, and the exception that left the closure, if any. -/
structure TaskRun where
  prom : Promise
  escaped : Option StdException
deriving DecidableEq, Repr

namespace MasterNode

/-- The closure `add_driver` posts (lines 115-118): `init`, then `set_value`. -/
def add_driver_task (node_instance : DriverInterface) (node_id : Nat) (prom : Promise) :
    TaskRun :=
  match node_instance.init node_id with
  | .throws e => ⟨prom, some e⟩
  | .returns =>
    match prom.set_value with
    | .ok p => ⟨p, none⟩
    | .error e => ⟨prom, some e⟩

/-- The closure `remove_driver` posts (lines 126-129): `remove`, then
`set_value`. -/
def remove_driver_task (node_instance : DriverInterface) (node_id : Nat) (prom : Promise) :
    TaskRun :=
  match node_instance.remove node_id with
  | .throws e => ⟨prom, some e⟩
  | .returns =>
    match prom.set_value with
    | .ok p => ⟨p, none⟩
    | .error e => ⟨prom, some e⟩

end MasterNode

/-- A call of `add_driver` or `remove_driver` as its caller and the loop thread
see it once the loop has run the posted closure: the result slot, the exception
that left the closure on the loop thread, and whether `f.wait()` returned to
the caller. The caller never calls `f.get()`, so nothing is rethrown to it. -/
structure BlockingCall where
  prom : Promise
  escaped : Option StdException
  returned : Bool
deriving DecidableEq, Repr

namespace MasterNode

/-- The member function `MasterNode::add_driver` (lines 111-120). -/
def add_driver (node_instance : DriverInterface) (node_id : Nat) : BlockingCall :=
  let prom := Promise.fresh
  -- auto f = prom->get_future(); exec_->post(...), run by loop_->run()
  let run := add_driver_task node_instance node_id prom
  -- f.wait()
  ⟨run.prom, run.escaped, run.prom.ready⟩

/-- The member function `MasterNode::remove_driver` (lines 122-131). -/
def remove_driver (node_instance : DriverInterface) (node_id : Nat) : BlockingCall :=
  let prom := Promise.fresh
  -- auto f = prom->get_future(); exec_->post(...), run by loop_->run()
  let run := remove_driver_task node_instance node_id prom
  -- f.wait()
  ⟨run.prom, run.escaped, run.prom.ready⟩

end MasterNode

/-- A driver whose `init` and `remove` return. -/
def good_driver : DriverInterface := ⟨fun _ => .returns, fun _ => .returns⟩

/-- A driver whose `init` and `remove` throw. -/
def failing_driver : DriverInterface :=
  ⟨fun _ => .throws ⟨"init failed"⟩, fun _ => .throws ⟨"remove failed"⟩⟩

/-! ## The executor and its posters -/

/-- Which of the two blocking calls. -/
inductive CallKind where
  | add_driver
  | remove_driver
deriving DecidableEq, Repr

/-- One call of `add_driver` or `remove_driver` with its arguments. -/
structure DriverCall where
  kind : CallKind
  node_instance : DriverInterface
  node_id : Nat

/-- The closure the call posts to `exec_`. -/
def DriverCall.closure (c : DriverCall) : Promise → TaskRun :=
  match c.kind with
  | .add_driver => MasterNode.add_driver_task c.node_instance c.node_id
  | .remove_driver => MasterNode.remove_driver_task c.node_instance c.node_id

/-- A closure posted to `exec_`: the thread that posted it, the call it belongs
to, and the promise it captured (its position in the table of promises). -/
structure Posted where
  thread : Nat
  call : DriverCall
  prom : Nat

/-- The master as the blocking posts see it: the promises created so far, every
closure posted so far (oldest first), the closures waiting in `exec_`, the
closures the loop thread has run (oldest first), and the exception that left a
closure on the loop thread, which stops the loop. -/
structure Runtime where
  promises : List Promise
  posted : List Posted
  pending : List Posted
  executed : List Posted
  fault : Option StdException

/-- The master right after construction: nothing posted. -/
def Runtime.init : Runtime := ⟨[], [], [], [], none⟩

/-- Whether the promise at position `p` has been resolved. -/
def Runtime.ready (R : Runtime) (p : Nat) : Bool := (R.promises.getD p Promise.fresh).ready

/-- Whether a thread is inside `f.wait()`: it posted a closure whose promise is
not resolved. -/
def Runtime.blocked (R : Runtime) (t : Nat) : Bool :=
  R.posted.any (fun x => x.thread == t && !R.ready x.prom)

/-- What can happen next: a thread enters `add_driver` or `remove_driver`
(creates the promise and posts the closure, then waits), or the loop thread
takes the closure at position `i` of the queue and runs it to its end. The
position is left free: the results do not rely on the order in which the
executor serves its queue. -/
inductive Event where
  | call (thread : Nat) (c : DriverCall)
  | run (i : Nat)

/-- One step of the master; `none` when the event cannot happen (the thread is
still blocked in an earlier call, the loop has stopped, or there is no closure
at the position). -/
def Runtime.step (R : Runtime) : Event → Option Runtime
  | .call t c =>
    if R.blocked t then none
    else
      let x : Posted := ⟨t, c, R.promises.length⟩
      some { R with promises := R.promises ++ [Promise.fresh],
                    posted := R.posted ++ [x],
                    pending := R.pending ++ [x] }
  | .run i =>
    if R.fault.isSome then none
    else
      match R.pending[i]? with
      | none => none
      | some x =>
        let r := x.call.closure (R.promises.getD x.prom Promise.fresh)
        some { R with promises := R.promises.set x.prom r.prom,
                      pending := R.pending.eraseIdx i,
                      executed := R.executed ++ [x],
                      fault := r.escaped }

/-- The master after a sequence of events. -/
def Runtime.run_schedule (R : Runtime) : List Event → Option Runtime
  | [] => some R
  | e :: es =>
    match R.step e with
    | none => none
    | some R' => R'.run_schedule es

/-- The calls a thread issues in a sequence of events, in program order. -/
def issued_by (t : Nat) : List Event → List DriverCall
  | [] => []
  | .call t' c :: es => if t' = t then c :: issued_by t es else issued_by t es
  | .run _ :: es => issued_by t es

/-- The calls of a thread among a list of closures, in the order of the list. -/
def calls_of (t : Nat) (l : List Posted) : List DriverCall :=
  (l.filter (fun x => x.thread == t)).map (fun x => x.call)

/-- The invariant of the master under blocking posts. For every thread, the
closures it posted are those already run followed by those still queued; a
queued closure holds an unresolved promise of the table, no two queued closures
share a promise, and a thread has at most one closure queued. -/
structure Runtime.Consistent (R : Runtime) : Prop where
  split : ∀ t, R.executed.filter (fun x => x.thread == t) ++
      R.pending.filter (fun x => x.thread == t) = R.posted.filter (fun x => x.thread == t)
  unresolved : ∀ x ∈ R.pending, R.promises.getD x.prom Promise.fresh = Promise.fresh
  bound : ∀ x ∈ R.pending, x.prom < R.promises.length
  distinct : (R.pending.map (fun x => x.prom)).Nodup
  single : ∀ t, (R.pending.filter (fun x => x.thread == t)).length ≤ 1

/-- A run of the master with two posting threads: thread 1 adds and then
removes a driver for node 5 while thread 2 adds one for node 7, and the loop
thread serves thread 2 first. -/
def example_schedule : List Event :=
  [.call 1 ⟨.add_driver, good_driver, 5⟩, .call 2 ⟨.add_driver, good_driver, 7⟩,
   .run 1, .run 0, .call 1 ⟨.remove_driver, good_driver, 5⟩, .run 0]

/-! ## Shutdown -/

/-- Signal number of SIGHUP (`signal.h`). -/
def SIGHUP : Nat := 1

/-- Signal number of SIGINT (`signal.h`). -/
def SIGINT : Nat := 2

/-- Signal number of SIGTERM (`signal.h`). -/
def SIGTERM : Nat := 15

/-- Whether the default action of a signal ends the process (`signal(7)`): every
signal does, except SIGCHLD 17, SIGCONT 18, SIGSTOP 19, SIGTSTP 20, SIGTTIN 21,
SIGTTOU 22, SIGURG 23 and SIGWINCH 28. -/
def default_terminates (signo : Nat) : Bool :=
  !([17, 18, 19, 20, 21, 22, 23, 28].contains signo)

/-- The data members of `MasterNode` (lines 31-44). -/
inductive Member where
  | master_ | io_guard_ | ctx_ | poll_ | loop_ | exec_ | timer_ | ctrl_ | chan_
  | sigset_ | spinner_ | sdo_read_service | sdo_write_service
deriving DecidableEq, Repr

/-- The data members in the order of their declaration (lines 31-44). -/
def declaration_order : List Member :=
  [.master_, .io_guard_, .ctx_, .poll_, .loop_, .exec_, .timer_, .ctrl_, .chan_,
   .sigset_, .spinner_, .sdo_read_service, .sdo_write_service]

/-- The steps of a shutdown that can be observed. -/
inductive Action where
  | sigset_clear
  | ctx_shutdown
  | loop_run_returns
  | spinner_join
  | destroy (m : Member)
  | std_terminate
  | default_action (signo : Nat)
deriving DecidableEq, Repr

/-- A `lely::io::SignalSet`: the signals it watches, and whether a handler
submitted with `submit_wait` is waiting for the next of them. -/
structure SignalSet where
  signals : List Nat
  wait : Bool
deriving DecidableEq, Repr

/-- A signal set that watches nothing. -/
def SignalSet.new : SignalSet := ⟨[], false⟩

/-- The call `sigset_->insert(signo)`. -/
def SignalSet.insert (s : SignalSet) (signo : Nat) : SignalSet :=
  { s with signals := s.signals ++ [signo] }

/-- The call `sigset_->clear()`: the set watches no signal any more, so a
signal raised later meets its default action again (the source installs no
other handler; the comment at the call reads "If the signal is raised again,
terminate immediately"). -/
def SignalSet.clear (s : SignalSet) : SignalSet :=
  { s with signals := [] }

/-- The call `sigset_->submit_wait(handler)`: one handler waits for the next
watched signal. -/
def SignalSet.submit_wait (s : SignalSet) : SignalSet :=
  { s with wait := true }

/-- The part of the master that takes part in a shutdown: the signal set,
whether `ctx_->shutdown()` has been called, how often the handler of
`submit_wait` has run, whether `loop_->run()` is still running in `spinner_`,
whether `spinner_` is joinable, whether the process has been ended by the
default action of a signal, and the actions so far, oldest first. -/
structure Master where
  sigset_ : SignalSet
  ctx_shutdown : Bool
  handler_runs : Nat
  loop_running : Bool
  spinner_joinable : Bool
  killed : Bool
  trace : List Action
deriving DecidableEq, Repr

namespace MasterNode

/-- The constructor, as far as shutdown is concerned (lines 66-91): the signal
set watches SIGHUP, SIGINT and SIGTERM, the handler waits, and `spinner_` runs
the loop. -/
def construct : Master :=
  let sigset_ := SignalSet.new
  let sigset_ := sigset_.insert SIGHUP
  let sigset_ := sigset_.insert SIGINT
  let sigset_ := sigset_.insert SIGTERM
  let sigset_ := sigset_.submit_wait
  { sigset_ := sigset_, ctx_shutdown := false, handler_runs := 0, loop_running := true,
    spinner_joinable := true, killed := false, trace := [] }

/-- The handler passed to `submit_wait` (lines 73-80); it ignores the signal
number. -/
def signal_handler (m : Master) (_signo : Nat) : Master :=
  -- If the signal is raised again, terminate immediately.
  let m := { m with sigset_ := m.sigset_.clear, trace := m.trace ++ [Action.sigset_clear] }
  -- Perform a clean shutdown.
  { m with ctx_shutdown := true, trace := m.trace ++ [Action.ctx_shutdown] }

/-- The implicit destructor, member by member: each member is destroyed,
except that destroying a joinable `std::thread` calls `std::terminate`, which
ends the process on the spot. -/
def destroy_members (joinable : Bool) : List Member → List Action
  | [] => []
  | m :: rest =>
    if m = Member.spinner_ ∧ joinable = true then [Action.std_terminate]
    else Action.destroy m :: destroy_members joinable rest

/-- The destructor of `MasterNode`. The class declares none, so the members are
destroyed in the reverse order of their declaration. -/
def destructor (m : Master) : Master :=
  { m with trace := m.trace ++ destroy_members m.spinner_joinable declaration_order.reverse }

end MasterNode

/-- A signal is raised in the process. A watched signal runs the waiting
handler on the loop thread, once; a watched signal with no handler waiting
stays in the set; a signal that is not watched meets its default action. -/
def Master.raise (m : Master) (signo : Nat) : Master :=
  if m.killed then m
  else if signo ∈ m.sigset_.signals then
    if m.sigset_.wait && m.loop_running then
      MasterNode.signal_handler
        { m with sigset_ := { m.sigset_ with wait := false },
                 handler_runs := m.handler_runs + 1 } signo
    else m
  else if default_terminates signo then
    { m with killed := true, trace := m.trace ++ [Action.default_action signo] }
  else m

/-- The call `loop_->run()` returns in `spinner_`, which it does once the I/O
context has been shut down. The thread stays joinable. -/
def Master.loop_returns (m : Master) : Master :=
  if m.ctx_shutdown && m.loop_running && !m.killed then
    { m with loop_running := false, trace := m.trace ++ [Action.loop_run_returns] }
  else m

/-- The states of the shutdown state machine of the specification. -/
inductive Phase where
  | Armed
  | Draining
  | Terminated
deriving DecidableEq, Repr

/-- The state of the shutdown state machine a master is in. -/
def Master.phase (m : Master) : Phase :=
  if m.killed || !m.loop_running then .Terminated
  else if m.ctx_shutdown then .Draining
  else .Armed

/-- What can happen to a constructed master with respect to shutdown. Service
requests and driver registrations touch neither the signal set nor the I/O
context. -/
inductive ShutdownEvent where
  | signal (signo : Nat)
  | loop_returns
deriving DecidableEq, Repr

/-- One step of the shutdown state machine. -/
def Master.step (m : Master) : ShutdownEvent → Master
  | .signal signo => m.raise signo
  | .loop_returns => m.loop_returns

/-- Whether a signal is one of the three the constructor inserts. -/
def watched (signo : Nat) : Bool :=
  signo == SIGHUP || signo == SIGINT || signo == SIGTERM

/-- The run in which one thread issues the given calls one after the other and
the loop thread runs each posted closure before the thread issues the next. -/
def sequential (t : Nat) : List DriverCall → List Event
  | [] => []
  | c :: cs => .call t c :: .run 0 :: sequential t cs

/-! ## The service handlers -/

/-- The request translation of `on_sdo_read`, and the fact that the handler
always returns: the future it inspects is the one the bridge settles for the
request's node id and the `COData` built from the request. -/
theorem on_sdo_read_eq {σ ρ : Type} (bridge : LelyMasterBridge σ) (master_ : σ)
    (request : COReadIDRequest) (response : COReadIDResponse ρ) :
    MasterNode.on_sdo_read bridge master_ request response =
      match (bridge.async_read_sdo master_ request.nodeid
          ⟨request.index, request.subindex, 0, request.type⟩) with
      | (.value d, s) => .ok ⟨{ response with data := d.data_, success := true }, s, []⟩
      | (.exception e, s) => .ok ⟨{ response with success := false }, s, [e.what]⟩ := by
  unfold MasterNode.on_sdo_read
  rcases h : bridge.async_read_sdo master_ request.nodeid
      ⟨request.index, request.subindex, 0, request.type⟩ with ⟨f, s⟩
  cases f <;> simp [h, FutureResult.get, tryCatch, tryCatchThe, MonadExcept.tryCatch, MonadExceptOf.tryCatch, Except.tryCatch, bind, Except.bind, pure, Except.pure]

/-- The counterpart of `on_sdo_read_eq` for `on_sdo_write`. -/
theorem on_sdo_write_eq {σ ρ : Type} (bridge : LelyMasterBridge σ) (master_ : σ)
    (request : COWriteIDRequest) (response : COWriteIDResponse ρ) :
    MasterNode.on_sdo_write bridge master_ request response =
      match (bridge.async_write_sdo master_ request.nodeid
          ⟨request.index, request.subindex, request.data, request.type⟩) with
      | (.value b, s) => .ok ⟨{ response with success := b }, s, []⟩
      | (.exception e, s) => .ok ⟨{ response with success := false }, s, [e.what]⟩ := by
  unfold MasterNode.on_sdo_write
  rcases h : bridge.async_write_sdo master_ request.nodeid
      ⟨request.index, request.subindex, request.data, request.type⟩ with ⟨f, s⟩
  cases f <;> simp [h, FutureResult.get, tryCatch, tryCatchThe, MonadExcept.tryCatch, MonadExceptOf.tryCatch, Except.tryCatch, bind, Except.bind, pure, Except.pure]

/-- C10. The transaction `on_sdo_read` issues to the bridge is addressed to
the node id of the request and carries its index, sub-index and datatype tag
with a data payload of 0; the transaction `on_sdo_write` issues carries the
node id, index, sub-index, datatype tag and data value of the request. Each
handler issues exactly this one transaction. -/
theorem request_translation_faithful (rd : Nat → COData → FutureResult COData)
    (wr : Nat → COData → FutureResult Bool) (journal : List Transaction) {ρ ρ' : Type}
    (r : COReadIDRequest) (rresp : COReadIDResponse ρ)
    (w : COWriteIDRequest) (wresp : COWriteIDResponse ρ') :
    (∃ h, MasterNode.on_sdo_read (recording_bridge rd wr) journal r rresp = .ok h ∧
      h.master_ = journal ++ [Transaction.read r.nodeid
        { index_ := r.index, subindex_ := r.subindex, data_ := 0, type_ := r.type }]) ∧
    (∃ h, MasterNode.on_sdo_write (recording_bridge rd wr) journal w wresp = .ok h ∧
      h.master_ = journal ++ [Transaction.write w.nodeid
        { index_ := w.index, subindex_ := w.subindex, data_ := w.data, type_ := w.type }]) := by
  constructor
  · rw [on_sdo_read_eq]
    simp only [recording_bridge]
    cases rd r.nodeid ⟨r.index, r.subindex, 0, r.type⟩ <;> exact ⟨_, rfl, rfl⟩
  · rw [on_sdo_write_eq]
    simp only [recording_bridge]
    cases wr w.nodeid ⟨w.index, w.subindex, w.data, w.type⟩ <;> exact ⟨_, rfl, rfl⟩

/-! ## Round trip over the loopback bus -/

/-- A read transaction leaves the loopback bus as it was. -/
theorem LoopbackBus.read_snd (bus : LoopbackBus) (id : Nat) (data : COData) :
    (bus.read id data).2 = bus := by
  unfold LoopbackBus.read
  split_ifs
  · split
    · rfl
    · split_ifs <;> rfl
  · rfl

/-- Serving a read leaves the bus as it was. -/
theorem serve_sdo_read (bus : LoopbackBus) (r : COReadIDRequest) :
    serve bus (.sdo_read r) = bus := by
  have h := LoopbackBus.read_snd bus r.nodeid ⟨r.index, r.subindex, 0, r.type⟩
  simp only [serve, on_sdo_read_eq, loopback_bridge]
  rcases hb : bus.read r.nodeid ⟨r.index, r.subindex, 0, r.type⟩ with ⟨f, s⟩
  rw [hb] at h
  cases f <;> exact h

/-- Serving a write leaves the bus as the write transaction left it. -/
theorem serve_sdo_write (bus : LoopbackBus) (w : COWriteIDRequest) :
    serve bus (.sdo_write w) = (bus.write w.nodeid ⟨w.index, w.subindex, w.data, w.type⟩).2 := by
  simp only [serve, on_sdo_write_eq, loopback_bridge]
  rcases bus.write w.nodeid ⟨w.index, w.subindex, w.data, w.type⟩ with ⟨f, s⟩
  cases f <;> rfl

/-- Serving a request never changes the set of configured nodes. -/
theorem serve_nodes (bus : LoopbackBus) (q : Request) : (serve bus q).nodes = bus.nodes := by
  cases q with
  | sdo_read r => rw [serve_sdo_read]
  | sdo_write w =>
    rw [serve_sdo_write]
    unfold LoopbackBus.write
    split_ifs <;> rfl

/-- Serving a request that is not a write to the coordinates
(id, index, subindex) leaves the object stored there as it was. -/
theorem serve_find (bus : LoopbackBus) (q : Request) (id index subindex : Nat)
    (hq : q.writes_to id index subindex = false) :
    (serve bus q).find id index subindex = bus.find id index subindex := by
  cases q with
  | sdo_read r => rw [serve_sdo_read]
  | sdo_write w =>
    rw [serve_sdo_write]
    unfold LoopbackBus.write
    split_ifs
    · simp only [Request.writes_to] at hq
      simp only [LoopbackBus.find, List.find?_cons, hq]
    · rfl

/-- The two facts above, along a sequence of requests. -/
theorem foldl_serve_keeps (between : List Request) (bus : LoopbackBus) (id index subindex : Nat)
    (hno : ∀ q ∈ between, q.writes_to id index subindex = false) :
    (between.foldl serve bus).nodes = bus.nodes ∧
      (between.foldl serve bus).find id index subindex = bus.find id index subindex := by
  induction between generalizing bus with
  | nil => exact ⟨rfl, rfl⟩
  | cons q qs ih =>
    have hq := hno q (List.mem_cons_self q qs)
    have hqs : ∀ q' ∈ qs, q'.writes_to id index subindex = false :=
      fun q' hq' => hno q' (List.mem_cons_of_mem q hq')
    obtain ⟨h1, h2⟩ := ih (serve bus q) hqs
    simp only [List.foldl_cons]
    exact ⟨h1.trans (serve_nodes bus q), h2.trans (serve_find bus q id index subindex hq)⟩

/-- C3. Round trip on the loopback bus: if `on_sdo_write` with value `V`
reports `success = true`, then after any further requests none of which is a
write to the same coordinates, `on_sdo_read` for the same coordinates and
datatype reports `data = V` and `success = true`. -/
theorem write_read_round_trip {ρ ρ' : Type} (bus : LoopbackBus) (w : COWriteIDRequest)
    (wresp : COWriteIDResponse ρ) (hw : Handled LoopbackBus (COWriteIDResponse ρ))
    (between : List Request) (rresp : COReadIDResponse ρ')
    (hwrite : MasterNode.on_sdo_write loopback_bridge bus w wresp = .ok hw)
    (hsuccess : hw.response.success = true)
    (hno : ∀ q ∈ between, q.writes_to w.nodeid w.index w.subindex = false) :
    ∃ hr, MasterNode.on_sdo_read loopback_bridge (between.foldl serve hw.master_)
        ⟨w.nodeid, w.index, w.subindex, w.type⟩ rresp = .ok hr ∧
      hr.response.data = w.data ∧ hr.response.success = true := by
  rw [on_sdo_write_eq] at hwrite
  simp only [loopback_bridge, LoopbackBus.write] at hwrite
  by_cases hnode : w.nodeid ∈ bus.nodes
  · rw [if_pos hnode] at hwrite
    simp only [Except.ok.injEq] at hwrite
    subst hwrite
    obtain ⟨hn, hf⟩ := foldl_serve_keeps between
      { bus with objects := ⟨w.nodeid, w.index, w.subindex, w.type, w.data⟩ :: bus.objects }
      w.nodeid w.index w.subindex hno
    have hstored : LoopbackBus.find
        { bus with objects := ⟨w.nodeid, w.index, w.subindex, w.type, w.data⟩ :: bus.objects }
        w.nodeid w.index w.subindex = some ⟨w.nodeid, w.index, w.subindex, w.type, w.data⟩ := by
      simp [LoopbackBus.find]
    rw [hstored] at hf
    have hn' : w.nodeid ∈ (List.foldl serve
        { bus with objects := ⟨w.nodeid, w.index, w.subindex, w.type, w.data⟩ :: bus.objects }
        between).nodes := by
      rw [hn]; exact hnode
    rw [on_sdo_read_eq]
    simp only [loopback_bridge, LoopbackBus.read, if_pos hn', hf]
    exact ⟨_, rfl, rfl, rfl⟩
  · rw [if_neg hnode] at hwrite
    simp only [Except.ok.injEq] at hwrite
    subst hwrite
    simp at hsuccess

/-- Witness for C3, the scenario of the specification: node 5 is configured;
writing 42 to index 0x2000, sub-index 1 as UINT32 succeeds, and after a write
to another sub-index and a read, reading the same object back gives 42. -/
theorem write_read_round_trip_witness :
    ∃ hr, MasterNode.on_sdo_read loopback_bridge
        ([Request.sdo_write ⟨5, 0x2000, 2, 7, UINT32⟩, Request.sdo_read ⟨5, 0x2000, 1, UINT32⟩].foldl
          serve ⟨[5], [⟨5, 0x2000, 1, UINT32, 42⟩]⟩)
        ⟨5, 0x2000, 1, UINT32⟩ (⟨0, false, ()⟩ : COReadIDResponse Unit) = .ok hr ∧
      hr.response.data = 42 ∧ hr.response.success = true :=
  write_read_round_trip ⟨[5], []⟩ ⟨5, 0x2000, 1, 42, UINT32⟩ (⟨false, ()⟩ : COWriteIDResponse Unit)
    ⟨⟨true, ()⟩, ⟨[5], [⟨5, 0x2000, 1, UINT32, 42⟩]⟩, []⟩
    [Request.sdo_write ⟨5, 0x2000, 2, 7, UINT32⟩, Request.sdo_read ⟨5, 0x2000, 1, UINT32⟩]
    (⟨0, false, ()⟩ : COReadIDResponse Unit) (by rfl) (by rfl) (by decide)

/-! ## Blocking posts -/

/-- C5 as stated fails: with a driver whose `init` (or `remove`) throws, the
closure never reaches `set_value`, so the result slot is left unresolved (it
holds neither a value nor a failure), the exception leaves the closure on the
loop thread, and `f.wait()` does not return to the caller. -/
theorem add_driver_failure_leaves_slot_unresolved :
    (MasterNode.add_driver failing_driver 5).prom.resolutions = [] ∧
    (MasterNode.add_driver failing_driver 5).escaped = some ⟨"init failed"⟩ ∧
    (MasterNode.add_driver failing_driver 5).returned = false ∧
    (MasterNode.remove_driver failing_driver 5).prom.resolutions = [] ∧
    (MasterNode.remove_driver failing_driver 5).escaped = some ⟨"remove failed"⟩ ∧
    (MasterNode.remove_driver failing_driver 5).returned = false ∧
    ¬ (∀ (d : DriverInterface) (id : Nat),
        (MasterNode.add_driver d id).prom.resolutions.length = 1 ∧
        (MasterNode.remove_driver d id).prom.resolutions.length = 1) := by
  refine ⟨rfl, rfl, rfl, rfl, rfl, rfl, ?_⟩
  intro h
  have h5 := (h failing_driver 5).1
  revert h5
  decide

/-- C5, amended. When the driver's `init` (for `add_driver`) or `remove` (for
`remove_driver`) returns, the result slot is resolved exactly once, with a
value, nothing leaves the closure, and the blocked caller returns. When it
throws, the closure does not resolve the slot: the exception leaves the
closure on the loop thread and the caller is handed no failure. -/
theorem blocking_post_resolution (d : DriverInterface) (id : Nat) :
    (d.init id = .returns →
      MasterNode.add_driver d id = ⟨⟨[Resolution.value]⟩, none, true⟩) ∧
    (∀ e, d.init id = .throws e →
      MasterNode.add_driver d id = ⟨⟨[]⟩, some e, false⟩) ∧
    (d.remove id = .returns →
      MasterNode.remove_driver d id = ⟨⟨[Resolution.value]⟩, none, true⟩) ∧
    (∀ e, d.remove id = .throws e →
      MasterNode.remove_driver d id = ⟨⟨[]⟩, some e, false⟩) := by
  refine ⟨?_, ?_, ?_, ?_⟩
  · intro h
    simp [MasterNode.add_driver, MasterNode.add_driver_task, h, Promise.fresh,
      Promise.set_value, Promise.ready]
  · intro e h
    simp [MasterNode.add_driver, MasterNode.add_driver_task, h, Promise.fresh, Promise.ready]
  · intro h
    simp [MasterNode.remove_driver, MasterNode.remove_driver_task, h, Promise.fresh,
      Promise.set_value, Promise.ready]
  · intro e h
    simp [MasterNode.remove_driver, MasterNode.remove_driver_task, h, Promise.fresh,
      Promise.ready]

/-- Witness for the amended C5: a driver that returns and a driver that
throws, for node id 5. -/
theorem blocking_post_resolution_witness :
    MasterNode.add_driver good_driver 5 = ⟨⟨[Resolution.value]⟩, none, true⟩ ∧
    MasterNode.remove_driver good_driver 5 = ⟨⟨[Resolution.value]⟩, none, true⟩ ∧
    MasterNode.add_driver failing_driver 5 = ⟨⟨[]⟩, some ⟨"init failed"⟩, false⟩ ∧
    MasterNode.remove_driver failing_driver 5 = ⟨⟨[]⟩, some ⟨"remove failed"⟩, false⟩ :=
  ⟨(blocking_post_resolution good_driver 5).1 rfl,
   (blocking_post_resolution good_driver 5).2.2.1 rfl,
   (blocking_post_resolution failing_driver 5).2.1 _ rfl,
   (blocking_post_resolution failing_driver 5).2.2.2 _ rfl⟩

/-! ## Order of execution of the blocking posts -/

/-- The closures of thread `t` in a list, in the order of the list. -/
theorem calls_of_append (t : Nat) (l l' : List Posted) :
    calls_of t (l ++ l') = calls_of t l ++ calls_of t l' := by
  simp [calls_of, List.filter_append]

/-- Taking the closure at a position out of a list splits the list around it. -/
theorem eraseIdx_split {α : Type} (l : List α) (i : Nat) (x : α) (h : l[i]? = some x) :
    ∃ l1 l2, l = l1 ++ x :: l2 ∧ l.eraseIdx i = l1 ++ l2 := by
  induction l generalizing i with
  | nil => simp at h
  | cons a l ih =>
    cases i with
    | zero =>
      simp at h
      subst h
      exact ⟨[], l, rfl, rfl⟩
    | succ j =>
      simp at h
      obtain ⟨l1, l2, h1, h2⟩ := ih j h
      refine ⟨a :: l1, l2, ?_, ?_⟩
      · simp [h1]
      · simp [List.eraseIdx, h2]

/-- A thread with a closure in the queue is blocked. -/
theorem Runtime.Consistent.blocked_of_pending {R : Runtime} (hR : R.Consistent) (t : Nat)
    (x : Posted) (hx : x ∈ R.pending) (ht : x.thread = t) : R.blocked t = true := by
  have hxf : x ∈ R.pending.filter (fun x => x.thread == t) := by
    simp [List.mem_filter, hx, ht]
  have hxp : x ∈ R.posted.filter (fun x => x.thread == t) := by
    rw [← hR.split t]
    exact List.mem_append_right _ hxf
  have hxp' : x ∈ R.posted := (List.mem_filter.mp hxp).1
  simp only [Runtime.blocked, List.any_eq_true]
  have hr : R.ready x.prom = false := by
    unfold Runtime.ready
    rw [hR.unresolved x hx]
    rfl
  exact ⟨x, hxp', by simp [ht, hr]⟩

/-- A thread that is not blocked has no closure in the queue. -/
theorem Runtime.Consistent.no_pending {R : Runtime} (hR : R.Consistent) (t : Nat)
    (hb : R.blocked t = false) : R.pending.filter (fun x => x.thread == t) = [] := by
  rw [List.filter_eq_nil_iff]
  intro x hx hxt
  have := hR.blocked_of_pending t x hx (by simpa using hxt)
  rw [hb] at this
  cases this

/-- The master after construction is consistent. -/
theorem Runtime.init_consistent : Runtime.init.Consistent := by
  constructor <;> simp [Runtime.init]

/-- A step of the master keeps it consistent. -/
theorem Runtime.step_consistent {R R' : Runtime} (hR : R.Consistent) (e : Event)
    (hstep : R.step e = some R') : R'.Consistent := by
  cases e with
  | call t c =>
    simp only [Runtime.step] at hstep
    split_ifs at hstep with hb
    simp only [Option.some.injEq] at hstep
    subst hstep
    have hb' : R.blocked t = false := by simpa using hb
    constructor
    · intro t'
      simp only [List.filter_append, ← List.append_assoc, hR.split t']
    · intro x hx
      simp only [List.mem_append, List.mem_singleton] at hx
      rcases hx with hx | hx
      · have hlt := hR.bound x hx
        have hu := hR.unresolved x hx
        simp only [List.getD_eq_getElem?_getD] at hu ⊢
        rw [List.getElem?_append_left hlt]
        exact hu
      · subst hx
        simp [List.getD_eq_getElem?_getD]
    · intro x hx
      simp only [List.mem_append, List.mem_singleton] at hx
      rcases hx with hx | hx
      · have hlt := hR.bound x hx
        simp only [List.length_append, List.length_singleton]
        omega
      · subst hx
        simp
    · simp only [List.map_append, List.map_cons, List.map_nil]
      rw [List.nodup_append]
      refine ⟨hR.distinct, List.nodup_singleton _, ?_⟩
      intro p hp hp'
      simp only [List.mem_singleton] at hp'
      obtain ⟨x, hx, hxp⟩ := List.mem_map.mp hp
      have hlt := hR.bound x hx
      omega
    · intro t'
      by_cases htt : t = t'
      · subst htt
        simp [List.filter_append, hR.no_pending t hb']
      · have hne : (t == t') = false := by simpa using htt
        simp only [List.filter_append, List.filter_cons, hne, List.filter_nil]
        simpa using hR.single t'
  | run i =>
    simp only [Runtime.step] at hstep
    split_ifs at hstep with hf
    split at hstep
    · cases hstep
    · rename_i x hx
      simp only [Option.some.injEq] at hstep
      subst hstep
      obtain ⟨l1, l2, hl, he⟩ := eraseIdx_split R.pending i x hx
      have hmem : ∀ y, y ∈ l1 ++ l2 → y ∈ R.pending := by
        intro y hy
        rw [hl]
        simp only [List.mem_append, List.mem_cons] at hy ⊢
        tauto
      have hdist := hR.distinct
      rw [hl] at hdist
      simp only [List.map_append, List.map_cons] at hdist
      have hne : ∀ y, y ∈ l1 ++ l2 → y.prom ≠ x.prom := by
        intro y hy hyx
        rw [List.nodup_append] at hdist
        obtain ⟨_, h2, h3⟩ := hdist
        simp only [List.mem_append] at hy
        rcases hy with hy | hy
        · exact h3 (List.mem_map.mpr ⟨y, hy, rfl⟩) (by simp [hyx])
        · rw [List.nodup_cons] at h2
          exact h2.1 (List.mem_map.mpr ⟨y, hy, hyx⟩)
      constructor
      · intro t
        have hs := hR.split t
        have h1 := hR.single t
        rw [hl] at hs h1
        simp only [he]
        by_cases hxt : x.thread = t
        · have hxt' : (x.thread == t) = true := by simpa using hxt
          simp only [List.filter_append, List.filter_cons, hxt', ite_true, List.length_append,
            List.length_cons] at hs h1 ⊢
          have e1 : List.filter (fun x => x.thread == t) l1 = [] := by
            apply List.eq_nil_of_length_eq_zero; omega
          have e2 : List.filter (fun x => x.thread == t) l2 = [] := by
            apply List.eq_nil_of_length_eq_zero; omega
          rw [e1, e2] at hs ⊢
          simpa using hs
        · have hxt' : (x.thread == t) = false := by simpa using hxt
          simp only [List.filter_append, List.filter_cons, hxt', List.filter_nil,
            List.append_nil] at hs ⊢
          simpa using hs
      · intro y hy
        simp only [he] at hy
        have hu := hR.unresolved y (hmem y hy)
        simp only [List.getD_eq_getElem?_getD] at hu ⊢
        rw [List.getElem?_set_ne (Ne.symm (hne y hy))]
        exact hu
      · intro y hy
        simp only [he] at hy
        simpa using hR.bound y (hmem y hy)
      · simp only [he]
        rw [List.nodup_append] at hdist
        simp only [List.map_append]
        rw [List.nodup_append]
        obtain ⟨h1, h2, h3⟩ := hdist
        refine ⟨h1, (List.nodup_cons.mp h2).2, ?_⟩
        intro p hp hp'
        exact h3 hp (List.mem_cons_of_mem _ hp')
      · intro t
        have h1 := hR.single t
        rw [hl] at h1
        simp only [he]
        simp only [List.filter_append, List.length_append, List.filter_cons] at h1 ⊢
        split_ifs at h1
        · simp only [List.length_cons] at h1
          omega
        · exact h1

/-- A step of the master adds to the closures a thread has posted exactly the
call the thread issues in that step. -/
theorem Runtime.step_posted {R R' : Runtime} (t : Nat) (e : Event)
    (hstep : R.step e = some R') :
    calls_of t R'.posted = calls_of t R.posted ++ issued_by t [e] := by
  cases e with
  | call t' c =>
    simp only [Runtime.step] at hstep
    split_ifs at hstep with hb
    simp only [Option.some.injEq] at hstep
    subst hstep
    rw [calls_of_append]
    by_cases htt : t' = t
    · simp [calls_of, issued_by, htt]
    · simp [calls_of, issued_by, htt]
  | run i =>
    simp only [Runtime.step] at hstep
    split_ifs at hstep with hf
    split at hstep
    · cases hstep
    · simp only [Option.some.injEq] at hstep
      subst hstep
      simp [issued_by]

/-- The calls a thread issues along two sequences of events, one after the
other. -/
theorem issued_by_cons (t : Nat) (e : Event) (es : List Event) :
    issued_by t (e :: es) = issued_by t [e] ++ issued_by t es := by
  cases e with
  | call t' c =>
    by_cases htt : t' = t <;> simp [issued_by, htt]
  | run i => simp [issued_by]

/-- A sequence of events keeps the master consistent, and the closures a thread
has posted grow by the calls the thread issues in the sequence. -/
theorem Runtime.run_schedule_consistent (t : Nat) (es : List Event) {R R' : Runtime}
    (hR : R.Consistent) (hrun : R.run_schedule es = some R') :
    R'.Consistent ∧ calls_of t R'.posted = calls_of t R.posted ++ issued_by t es := by
  induction es generalizing R with
  | nil =>
    simp only [Runtime.run_schedule, Option.some.injEq] at hrun
    subst hrun
    exact ⟨hR, by simp [issued_by]⟩
  | cons e es ih =>
    simp only [Runtime.run_schedule] at hrun
    split at hrun
    · cases hrun
    · rename_i R1 h1
      obtain ⟨hc, hp⟩ := ih (Runtime.step_consistent hR e h1) hrun
      refine ⟨hc, ?_⟩
      rw [hp, Runtime.step_posted t e h1, issued_by_cons t e es, List.append_assoc]

/-- C8. Per-poster order. In every run of the master, whatever the other
threads post and in whatever order the executor serves its queue, the closures
of one thread that the loop thread has run, followed by the one still queued
(there is at most one), are the calls that thread issued, in program order;
once the thread is not blocked in a call, the loop thread has run all its
closures, in the order of the calls. A closure runs to its end within one
step of the loop thread. -/
theorem per_poster_order (t : Nat) (es : List Event) (R : Runtime)
    (hrun : Runtime.init.run_schedule es = some R) :
    calls_of t R.executed ++ calls_of t R.pending = issued_by t es ∧
    (calls_of t R.pending).length ≤ 1 ∧
    (R.blocked t = false → calls_of t R.executed = issued_by t es) := by
  obtain ⟨hc, hp⟩ := Runtime.run_schedule_consistent t es Runtime.init_consistent hrun
  have hposted : calls_of t R.posted = issued_by t es := by
    rw [hp]
    simp [calls_of, Runtime.init]
  have hsplit : calls_of t R.executed ++ calls_of t R.pending = issued_by t es := by
    rw [← hposted]
    simp only [calls_of, ← List.map_append, hc.split t]
  refine ⟨hsplit, ?_, ?_⟩
  · simpa [calls_of] using hc.single t
  · intro hb
    have hnone := hc.no_pending t hb
    rw [← hsplit]
    simp [calls_of, hnone]

/-- The blocking posts complete: when the queue is empty, the loop has not
stopped and every promise of a posted closure is resolved, a thread can issue
any sequence of calls whose `init` or `remove` return, one after the other; the
loop thread runs each closure as it arrives, the thread ends unblocked, and the
closures run are those of the calls, in their order. -/
theorem sequential_posts_complete (t : Nat) (cs : List DriverCall) (R : Runtime)
    (hq : R.pending = []) (hf : R.fault = none)
    (hp : ∀ x ∈ R.posted, x.prom < R.promises.length ∧ R.ready x.prom = true)
    (hret : ∀ c ∈ cs, c.closure Promise.fresh = ⟨⟨[Resolution.value]⟩, none⟩) :
    ∃ R', R.run_schedule (sequential t cs) = some R' ∧ R'.pending = [] ∧ R'.fault = none ∧
      R'.blocked t = false ∧
      calls_of t R'.executed = calls_of t R.executed ++ cs := by
  induction cs generalizing R with
  | nil =>
    refine ⟨R, rfl, hq, hf, ?_, by simp⟩
    simp only [Runtime.blocked, List.any_eq_false]
    intro x hx
    simp [(hp x hx).2]
  | cons c cs ih =>
    have hb : R.blocked t = false := by
      simp only [Runtime.blocked, List.any_eq_false]
      intro x hx
      simp [(hp x hx).2]
    have hc := hret c (List.mem_cons_self c cs)
    have hget : (R.promises ++ [Promise.fresh]).getD R.promises.length Promise.fresh =
        Promise.fresh := by
      simp [List.getD_eq_getElem?_getD]
    have hset : (R.promises ++ [Promise.fresh]).set R.promises.length ⟨[Resolution.value]⟩ =
        R.promises ++ [⟨[Resolution.value]⟩] := by
      simp [List.set_append]
    have hstep : R.run_schedule (sequential t (c :: cs)) =
        Runtime.run_schedule
          { R with promises := R.promises ++ [⟨[Resolution.value]⟩],
                   posted := R.posted ++ [⟨t, c, R.promises.length⟩],
                   pending := [],
                   executed := R.executed ++ [⟨t, c, R.promises.length⟩],
                   fault := none } (sequential t cs) := by
      simp only [sequential, Runtime.run_schedule, Runtime.step, hb, hq, hf, List.nil_append,
        Bool.false_eq_true, if_false, Option.isSome_none, List.getElem?_cons_zero, hget, hc,
        hset, List.eraseIdx_cons_zero]
    obtain ⟨R', h1, h2, h3, h4, h5⟩ := ih
      { R with promises := R.promises ++ [⟨[Resolution.value]⟩],
               posted := R.posted ++ [⟨t, c, R.promises.length⟩],
               pending := [],
               executed := R.executed ++ [⟨t, c, R.promises.length⟩],
               fault := none } rfl rfl
      (by
        intro x hx
        simp only [List.mem_append, List.mem_singleton] at hx
        rcases hx with hx | hx
        · obtain ⟨hlt, hr⟩ := hp x hx
          refine ⟨by simp only [List.length_append, List.length_singleton]; omega, ?_⟩
          simp only [Runtime.ready, List.getD_eq_getElem?_getD] at hr ⊢
          rw [List.getElem?_append_left hlt]
          exact hr
        · subst hx
          refine ⟨by simp, ?_⟩
          simp [Runtime.ready, List.getD_eq_getElem?_getD, Promise.ready])
      (fun c' hc' => hret c' (List.mem_cons_of_mem c hc'))
    refine ⟨R', hstep.trans h1, h2, h3, h4, ?_⟩
    rw [h5, calls_of_append]
    simp [calls_of]

/-- Witness for C8: in the example run thread 1 ends unblocked and its two
closures ran in the order of its calls, although the loop thread served the
closure of thread 2 before them. -/
theorem per_poster_order_witness :
    ∃ R, Runtime.init.run_schedule example_schedule = some R ∧ R.blocked 1 = false ∧
      calls_of 1 R.executed = issued_by 1 example_schedule ∧
      (issued_by 1 example_schedule).map (fun c => (c.kind, c.node_id)) =
        [(CallKind.add_driver, 5), (CallKind.remove_driver, 5)] := by
  refine ⟨_, rfl, rfl, ?_, rfl⟩
  exact (per_poster_order 1 example_schedule _ rfl).2.2 rfl

/-! ## Shutdown -/

/-- A signal that is not watched meets its default action. -/
theorem Master.raise_of_not_watching (m : Master) (signo : Nat) (hk : m.killed = false)
    (hn : signo ∉ m.sigset_.signals) :
    m.raise signo =
      if default_terminates signo = true then
        { m with killed := true, trace := m.trace ++ [Action.default_action signo] }
      else m := by
  unfold Master.raise
  simp [hk, hn]

/-- A watched signal runs the waiting handler. -/
theorem Master.raise_of_watching (m : Master) (signo : Nat) (hk : m.killed = false)
    (hw : signo ∈ m.sigset_.signals) (hwait : m.sigset_.wait = true)
    (hloop : m.loop_running = true) :
    m.raise signo = MasterNode.signal_handler
      { m with sigset_ := { m.sigset_ with wait := false },
               handler_runs := m.handler_runs + 1 } signo := by
  unfold Master.raise
  simp [hk, hw, hwait, hloop]

/-- The signals the constructed master watches are the three inserted ones. -/
theorem mem_construct_signals (signo : Nat) :
    signo ∈ MasterNode.construct.sigset_.signals ↔ watched signo = true := by
  have h : MasterNode.construct.sigset_.signals = [SIGHUP, SIGINT, SIGTERM] := rfl
  rw [h]
  simp [watched, or_assoc]

/-- A master reached from the constructed one is the constructed one, or its
I/O context has been asked to shut down, or the process has been ended. -/
theorem reachable_cases (es : List ShutdownEvent) :
    es.foldl Master.step MasterNode.construct = MasterNode.construct ∨
    (es.foldl Master.step MasterNode.construct).ctx_shutdown = true ∨
    (es.foldl Master.step MasterNode.construct).killed = true := by
  induction es using List.reverseRecOn with
  | nil => exact Or.inl rfl
  | append_singleton es e ih =>
    rw [List.foldl_append, List.foldl_cons, List.foldl_nil]
    generalize es.foldl Master.step MasterNode.construct = m at ih ⊢
    rcases ih with h | h | h
    · subst h
      cases e with
      | signal signo =>
        simp only [Master.step]
        by_cases hw : signo ∈ MasterNode.construct.sigset_.signals
        · right; left
          rw [Master.raise_of_watching _ _ rfl hw rfl rfl]
          rfl
        · rw [Master.raise_of_not_watching _ _ rfl hw]
          by_cases hd : default_terminates signo = true
          · right; right
            rw [if_pos hd]
          · left
            rw [if_neg hd]
      | loop_returns => left; rfl
    · right; left
      cases e with
      | signal signo =>
        simp only [Master.step, Master.raise, MasterNode.signal_handler]
        split_ifs <;> simp [h]
      | loop_returns =>
        simp only [Master.step, Master.loop_returns]
        split_ifs <;> simp [h]
    · right; right
      cases e with
      | signal signo => simp [Master.step, Master.raise, h]
      | loop_returns => simp [Master.step, Master.loop_returns, h]

/-- The only reachable master in state Armed is the constructed one. -/
theorem armed_is_constructed (es : List ShutdownEvent)
    (harmed : (es.foldl Master.step MasterNode.construct).phase = Phase.Armed) :
    es.foldl Master.step MasterNode.construct = MasterNode.construct := by
  rcases reachable_cases es with h | h | h
  · exact h
  · simp [Master.phase, h] at harmed
    split_ifs at harmed
  · simp [Master.phase, h] at harmed

/-- C6. In state Armed, each of SIGHUP, SIGINT and SIGTERM has one and the same
effect: the handler runs, the signal set is cleared, then the I/O context is
asked to shut down, and the master is in state Draining; the resulting master
is the same for the three signals. Any other signal leaves the signal set and
the I/O context alone and does not run the handler. -/
theorem watched_signal_starts_draining (es : List ShutdownEvent) (signo : Nat)
    (harmed : (es.foldl Master.step MasterNode.construct).phase = Phase.Armed) :
    (watched signo = true →
      ((es.foldl Master.step MasterNode.construct).raise signo).sigset_ = ⟨[], false⟩ ∧
      ((es.foldl Master.step MasterNode.construct).raise signo).ctx_shutdown = true ∧
      ((es.foldl Master.step MasterNode.construct).raise signo).handler_runs = 1 ∧
      ((es.foldl Master.step MasterNode.construct).raise signo).trace =
        (es.foldl Master.step MasterNode.construct).trace ++
          [Action.sigset_clear, Action.ctx_shutdown] ∧
      ((es.foldl Master.step MasterNode.construct).raise signo).phase = Phase.Draining ∧
      (es.foldl Master.step MasterNode.construct).raise signo =
        (es.foldl Master.step MasterNode.construct).raise SIGHUP ∧
      (es.foldl Master.step MasterNode.construct).raise signo =
        (es.foldl Master.step MasterNode.construct).raise SIGINT ∧
      (es.foldl Master.step MasterNode.construct).raise signo =
        (es.foldl Master.step MasterNode.construct).raise SIGTERM) ∧
    (watched signo = false →
      ((es.foldl Master.step MasterNode.construct).raise signo).sigset_ =
        (es.foldl Master.step MasterNode.construct).sigset_ ∧
      ((es.foldl Master.step MasterNode.construct).raise signo).ctx_shutdown = false ∧
      ((es.foldl Master.step MasterNode.construct).raise signo).handler_runs = 0 ∧
      ((es.foldl Master.step MasterNode.construct).raise signo).phase ≠ Phase.Draining) := by
  rw [armed_is_constructed es harmed]
  constructor
  · intro hw
    simp only [watched, Bool.or_eq_true, beq_iff_eq] at hw
    rcases hw with (hw | hw) | hw <;> subst hw <;> decide
  · intro hw
    have hnot : signo ∉ MasterNode.construct.sigset_.signals := by
      rw [mem_construct_signals, hw]
      simp
    rw [Master.raise_of_not_watching _ _ rfl hnot]
    by_cases hd : default_terminates signo = true
    · rw [if_pos hd]
      exact ⟨rfl, rfl, rfl, by simp [Master.phase]⟩
    · rw [if_neg hd]
      exact ⟨rfl, rfl, rfl, by decide⟩

/-- Witness for C6: SIGTERM raised on the master right after construction, and
SIGUSR1 (10) raised instead. -/
theorem watched_signal_starts_draining_witness :
    (MasterNode.construct.raise SIGTERM).sigset_ = ⟨[], false⟩ ∧
    (MasterNode.construct.raise SIGTERM).ctx_shutdown = true ∧
    (MasterNode.construct.raise SIGTERM).phase = Phase.Draining ∧
    (MasterNode.construct.raise 10).ctx_shutdown = false ∧
    (MasterNode.construct.raise 10).handler_runs = 0 := by
  have h := watched_signal_starts_draining [] SIGTERM (by decide)
  have h10 := watched_signal_starts_draining [] 10 (by decide)
  have ht := h.1 (by decide)
  have hu := h10.2 (by decide)
  exact ⟨ht.1, ht.2.1, ht.2.2.2.2.1, hu.2.1, hu.2.2.1⟩

/-- A step of a master whose signal set is cleared, whose handler has run once
and whose I/O context has been asked to shut down leaves these three facts as
they are. -/
theorem Master.step_keeps_drained (m : Master) (e : ShutdownEvent)
    (h : m.sigset_ = ⟨[], false⟩ ∧ m.ctx_shutdown = true ∧ m.handler_runs = 1) :
    (m.step e).sigset_ = ⟨[], false⟩ ∧ (m.step e).ctx_shutdown = true ∧
      (m.step e).handler_runs = 1 := by
  obtain ⟨h1, h2, h3⟩ := h
  cases e with
  | signal signo =>
    simp only [Master.step, Master.raise, h1, List.not_mem_nil, if_false]
    split_ifs
    · exact ⟨h1, h2, h3⟩
    · exact ⟨rfl, h2, h3⟩
    · exact ⟨h1, h2, h3⟩
  | loop_returns =>
    simp only [Master.step, Master.loop_returns]
    split_ifs <;> exact ⟨h1, h2, h3⟩

/-- After the first watched signal, and whatever happens next, the signal set
is cleared, the handler has run once and the I/O context has been asked to
shut down. -/
theorem drained_after_first_signal (first : Nat) (hfirst : watched first = true)
    (es : List ShutdownEvent) :
    (es.foldl Master.step (MasterNode.construct.raise first)).sigset_ = ⟨[], false⟩ ∧
    (es.foldl Master.step (MasterNode.construct.raise first)).ctx_shutdown = true ∧
    (es.foldl Master.step (MasterNode.construct.raise first)).handler_runs = 1 := by
  induction es using List.reverseRecOn with
  | nil =>
    rw [List.foldl_nil,
      Master.raise_of_watching _ _ rfl ((mem_construct_signals first).mpr hfirst) rfl rfl]
    exact ⟨rfl, rfl, rfl⟩
  | append_singleton es e ih =>
    rw [List.foldl_append, List.foldl_cons, List.foldl_nil]
    exact Master.step_keeps_drained _ e ih

/-- C7. The shutdown state never moves backwards. After the first watched
signal, in every state the master can reach, it is not Armed, the handler has
run exactly once and no handler waits any more; a second SIGHUP, SIGINT or
SIGTERM raised in state Draining does not run the handler but meets the default
action, which ends the process at once. -/
theorem shutdown_is_one_way (first : Nat) (hfirst : watched first = true)
    (es : List ShutdownEvent) :
    (es.foldl Master.step (MasterNode.construct.raise first)).phase ≠ Phase.Armed ∧
    (es.foldl Master.step (MasterNode.construct.raise first)).handler_runs = 1 ∧
    (es.foldl Master.step (MasterNode.construct.raise first)).sigset_.wait = false ∧
    (∀ second, watched second = true →
      (es.foldl Master.step (MasterNode.construct.raise first)).phase = Phase.Draining →
      ((es.foldl Master.step (MasterNode.construct.raise first)).raise second).handler_runs = 1 ∧
      ((es.foldl Master.step (MasterNode.construct.raise first)).raise second).killed = true ∧
      ((es.foldl Master.step (MasterNode.construct.raise first)).raise second).phase =
        Phase.Terminated ∧
      ((es.foldl Master.step (MasterNode.construct.raise first)).raise second).trace =
        (es.foldl Master.step (MasterNode.construct.raise first)).trace ++
          [Action.default_action second]) := by
  obtain ⟨h1, h2, h3⟩ := drained_after_first_signal first hfirst es
  generalize es.foldl Master.step (MasterNode.construct.raise first) = m at h1 h2 h3 ⊢
  refine ⟨?_, h3, by rw [h1], ?_⟩
  · simp only [Master.phase, h2]
    split_ifs <;> simp
  · intro second hsecond hdraining
    have hk : m.killed = false := by
      simp only [Master.phase] at hdraining
      split_ifs at hdraining with hc
      have hc' : m.killed = false ∧ m.loop_running = true := by simpa using hc
      exact hc'.1
    have hnot : second ∉ m.sigset_.signals := by
      rw [h1]
      simp
    have hd : default_terminates second = true := by
      simp only [watched, Bool.or_eq_true, beq_iff_eq] at hsecond
      rcases hsecond with (hs | hs) | hs <;> subst hs <;> decide
    rw [Master.raise_of_not_watching m second hk hnot, if_pos hd]
    exact ⟨h3, rfl, by simp [Master.phase], rfl⟩

/-- Witness for C7: SIGINT, then the loop keeps running, then SIGINT again. -/
theorem shutdown_is_one_way_witness :
    (MasterNode.construct.raise SIGINT).phase = Phase.Draining ∧
    ((MasterNode.construct.raise SIGINT).raise SIGINT).handler_runs = 1 ∧
    ((MasterNode.construct.raise SIGINT).raise SIGINT).killed = true ∧
    ((MasterNode.construct.raise SIGINT).raise SIGINT).phase = Phase.Terminated := by
  have h := (shutdown_is_one_way SIGINT (by decide) []).2.2.2 SIGINT (by decide) (by decide)
  exact ⟨by decide, h.1, h.2.1, h.2.2.1⟩

/-- C9, on the code. After a first SIGINT and the return of `loop_->run()`,
destroying the master performs these steps and no other: the signal set is
cleared, the I/O context is asked to shut down, the loop returns, the two
services are destroyed, and the destruction of the still joinable `spinner_`
calls `std::terminate`. The worker thread is never joined, and the channel,
the timer and the poll mechanism are not destroyed. -/
theorem destructor_terminates_on_joinable_spinner :
    (MasterNode.destructor ((MasterNode.construct.raise SIGINT).loop_returns)).trace =
      [Action.sigset_clear, Action.ctx_shutdown, Action.loop_run_returns,
       Action.destroy Member.sdo_write_service, Action.destroy Member.sdo_read_service,
       Action.std_terminate] ∧
    Action.spinner_join ∉
      (MasterNode.destructor ((MasterNode.construct.raise SIGINT).loop_returns)).trace ∧
    Action.destroy Member.chan_ ∉
      (MasterNode.destructor ((MasterNode.construct.raise SIGINT).loop_returns)).trace ∧
    Action.destroy Member.timer_ ∉
      (MasterNode.destructor ((MasterNode.construct.raise SIGINT).loop_returns)).trace ∧
    Action.destroy Member.poll_ ∉
      (MasterNode.destructor ((MasterNode.construct.raise SIGINT).loop_returns)).trace := by
  decide

end ros2_canopen
